import Mathlib

/-
Verification of the cascading documentation-search engine
(`searchAutoGenDocs` / `performIndexSearch` / `fallbackSearch`).

The TypeScript source is embedded shallowly:

* JavaScript string operations (`toLowerCase`, `trim`, `includes`,
  `substring(0, n)`, `split(/\s+/)`, `replace(/\s+/g, ' ')`,
  `match(/\(([^)]+)\)/)`, `startsWith`, `a || b` on strings) are modelled as
  executable functions on the underlying character lists, so that every
  definition is structurally recursive and kernel-evaluable.
* The external libraries (node-fetch, cheerio, JSON.parse of the search
  index payload, encodeURIComponent) are parameters of an `Env` record:
  `fetch` maps a URL to an outcome (network error, or a status flag plus
  body), `parseIndex` models the `Search.setIndex(...)` extraction plus
  `JSON.parse`, and `loadHtml` maps a body to the structured observations
  (`Doc`) that the cheerio queries in the source read off a page.
  For crawled pages the `Doc` fields record the values observed by the
  scans, i.e. after the `$("script, style").remove()` step.
* JavaScript exceptions are modelled by the `FetchOutcome.error`
  constructor; the try/catch structure of the source is translated into the
  corresponding case splits (a network error during the index or
  search-page fetch lands in the top-level catch, which calls
  `fallbackSearch`; a network error for a crawled page is caught by the
  per-page try/catch and skips that page).
* `Array.prototype.sort` with the comparator `bMatches - aMatches` is
  required by the JS spec to be a stable sort; it is modelled by a stable
  insertion sort into descending order, which produces the same list.
-/

/-! ## JavaScript string primitives -/

/-- Substring test on character lists: `containsSub sub hay` holds iff `sub`
occurs contiguously in `hay`.  Models `String.prototype.includes`. -/
def containsSub (sub : List Char) : List Char → Bool
  | [] => sub.isEmpty
  | c :: rest => sub.isPrefixOf (c :: rest) || containsSub sub rest

/-- Models `s.includes(pat)` of JavaScript. -/
def jsIncludes (s pat : String) : Bool :=
  containsSub pat.data s.data

/-- Models `s.toLowerCase()` (ASCII case mapping, as exercised by the source). -/
def jsToLower (s : String) : String :=
  String.mk (s.data.map Char.toLower)

/-- Models `s.trim()`. -/
def jsTrim (s : String) : String :=
  String.mk (((s.data.dropWhile Char.isWhitespace).reverse.dropWhile Char.isWhitespace).reverse)

/-- Models `s.substring(0, n)`. -/
def jsTake (s : String) (n : Nat) : String :=
  String.mk (s.data.take n)

/-- Models `s.startsWith(pat)`. -/
def jsStartsWith (s pat : String) : Bool :=
  pat.data.isPrefixOf s.data

/-- Models `s.endsWith(pat)`. -/
def jsEndsWith (s pat : String) : Bool :=
  pat.data.isSuffixOf s.data

/-- JavaScript `a || b` specialised to strings: the empty string is falsy. -/
def jsOr (a b : String) : String :=
  if a = "" then b else a

/-- Helper for `replace(/\s+/g, ' ')`: the flag records whether the previous
character was whitespace (so a run collapses to a single space). -/
def collapseWsAux : List Char → Bool → List Char
  | [], _ => []
  | c :: rest, prevWs =>
    if c.isWhitespace then
      if prevWs then collapseWsAux rest true else ' ' :: collapseWsAux rest true
    else c :: collapseWsAux rest false

/-- Models the title cleanup of the
search-page extraction. -/
def cleanTitle (t : String) : String :=
  jsTrim (String.mk (collapseWsAux t.data false))

/-- Helper for `query.split(/\s+/).filter(t => t.length > 0)`: returns the
maximal whitespace-free runs (the accumulator holds the current run,
reversed). -/
def wsSplitAux : List Char → List Char → List String
  | [], cur => if cur.isEmpty then [] else [String.mk cur.reverse]
  | c :: rest, cur =>
    if c.isWhitespace then
      if cur.isEmpty then wsSplitAux rest [] else String.mk cur.reverse :: wsSplitAux rest []
    else wsSplitAux rest (c :: cur)

/-- The lowercased, whitespace-split, nonempty query terms
(`queryLower.split(/\s+/).filter(term => term.length > 0)`). -/
def queryTermsOf (query : String) : List String :=
  wsSplitAux (jsToLower query).data []

/-- First match of `/\(([^)]+)\)/`: the content strictly between the first
`(` that is followed by at least one non-`)` character and then a `)`.
Returns `none` when the regex does not match. -/
def extractParen : List Char → Option String
  | [] => none
  | c :: rest =>
    if c = '(' then
      if (rest.takeWhile (fun x => x ≠ ')')).isEmpty then extractParen rest
      else if (rest.takeWhile (fun x => x ≠ ')')).length < rest.length then
        some (String.mk (rest.takeWhile (fun x => x ≠ ')')))
      else extractParen rest
    else extractParen rest

/-! ## Data model -/

/-- The `SearchResult` interface of the source.  The optional `type` field is
modelled as a `String`; the source only ever stores strings in it (possibly
the empty string on the search-page path). -/
structure SearchResult where
  title : String
  url : String
  snippet : String
  type : String
deriving DecidableEq, Repr

/-- The parsed search index: `searchData.titles` and `searchData.docnames`.
`none` models a JSON object without the corresponding (truthy-checked)
field. -/
structure SearchData where
  titles : Option (List String)
  docnames : Option (List String)
deriving Repr

/-- Outcome of `fetch(url)`: a network-level error (a thrown exception), or a
response with its `ok` flag and body text. -/
inductive FetchOutcome where
  | error : FetchOutcome
  | resp (ok : Bool) (body : String) : FetchOutcome

/-- A link inside the "Searching" section of the rendered search page, as
observed by the mode-(a) extraction: its text, `href` attribute, the text of
its parent element, and the text of its next sibling (`none` when the link
has no next sibling). -/
structure SLink where
  text : String
  href : String
  parentText : String
  nextText : Option String

/-- The closest preceding heading of a content block (`prevAll("h1, h2, h3,
h4, h5, h6").first()`): its text and `id` attribute. -/
structure HeadingRef where
  text : String
  id : Option String

/-- A heading element (`h1`–`h6`) of a crawled page: its text, `id`
attribute, and the text of `next("p, div")` (empty when there is no matching
next sibling). -/
structure BHeading where
  text : String
  id : Option String
  nextPDivText : String

/-- A `p` or `div` element of a crawled page. -/
structure BBlock where
  text : String
  prevHeading : Option HeadingRef

/-- An element of the `$("h1, h2, h3, h4, h5, h6, p, div")` selection used by
the MCP related-terms pass: its text, whether its tag is a heading, the text
of its closest preceding heading (empty when none), and its `id`. -/
structure BMcpEl where
  text : String
  isHeading : Bool
  prevHeadingText : String
  id : Option String

/-- An `a[href]` element of a crawled page: its text, `href`, parent text and
the joint text of the siblings of the parent. -/
structure BLink where
  text : String
  href : String
  parentText : String
  siblingsText : String

/-- The cheerio observations of one loaded HTML document, restricted to the
queries the source performs.  For crawled pages the values are those
observed after `$("script, style").remove()`. -/
structure Doc where
  searchingLinks : List SLink
  titleText : String
  firstH1Text : String
  mainText : String
  headings : List BHeading
  blocks : List BBlock
  allEls : List BMcpEl
  links : List BLink
  fullText : String

/-- A fallback-crawl target (`pagesToSearch` element). -/
structure PageDesc where
  url : String
  type : String

/-- The external world: the HTTP fetch capability, the search-index
extraction (`Search.setIndex` regex match plus `JSON.parse`; `none` covers
both a failed match and a parse exception, which the source treats
identically), the cheerio loader, and `encodeURIComponent`. -/
structure Env where
  fetch : String → FetchOutcome
  parseIndex : String → Option SearchData
  loadHtml : String → Doc
  encode : String → String

/-! ## Structured-index strategy (`performIndexSearch`) -/

def AUTOGEN_BASE_URL : String := "https://microsoft.github.io/autogen"

def getVersionUrl (version : String) : String :=
  AUTOGEN_BASE_URL ++ "/" ++ version

/-- The documentation domain every strategy checks URLs against. -/
def autogenDomain : String := "microsoft.github.io/autogen"

/-- Category inference from the document path (lines 53–64 of the source). -/
def docTypeOf (docname : String) : String :=
  if jsIncludes docname "python/" = true then "API Reference"
  else if jsIncludes docname "user-guide/" = true then "User Guide"
  else if jsIncludes docname "tutorials/" = true then "Tutorial"
  else if jsIncludes docname "components/" = true then "Core Guide"
  else "Documentation"

/-- The +3 title / +2 docname scoring pass (lines 45–49). -/
def scoreOf (terms : List String) (titleLower docnameLower : String) : Nat :=
  terms.foldl (fun s term =>
    (if jsIncludes titleLower term = true then s + 3 else s) +
      (if jsIncludes docnameLower term = true then 2 else 0)) 0

/-- Count of query terms occurring in the (lowercased) title — the secondary
relevance comparator (lines 77–83). -/
def titleMatchCount (terms : List String) (title : String) : Nat :=
  terms.foldl (fun c term => c + (if jsIncludes (jsToLower title) term = true then 1 else 0)) 0

/-- The entry pushed by the index scan (lines 52–71). -/
def mkIndexEntry (baseUrl title docname : String) : SearchResult :=
  { title := title
  , url := baseUrl ++ "/" ++ docname ++ ".html"
  , snippet := docTypeOf docname
  , type := docTypeOf docname }

/-- The collection loop of `performIndexSearch` (lines 37–73).  The Boolean
result records whether iterating titles ran past the end of `docnames`
(then `docname.toLowerCase()` throws a TypeError, caught at line 85, and the
partially collected results are returned unsorted). -/
def collectIndexResults (terms : List String) (baseUrl : String) (lim : Nat) :
    List String → List String → List SearchResult → List SearchResult × Bool
  | [], _, acc => (acc, false)
  | _ :: _, [], acc => if lim ≤ acc.length then (acc, false) else (acc, true)
  | t :: ts, d :: ds, acc =>
    if lim ≤ acc.length then (acc, false)
    else
      collectIndexResults terms baseUrl lim ts ds
        (if 0 < scoreOf terms (jsToLower t) (jsToLower d) then
          acc ++ [mkIndexEntry baseUrl t d]
        else acc)

/-- Stable insertion into a list sorted by descending count: the new element
goes after every strictly greater element and before equal ones that came
later. -/
def insertDesc (cnt : SearchResult → Nat) (x : SearchResult) :
    List SearchResult → List SearchResult
  | [] => [x]
  | y :: ys => if cnt x < cnt y then y :: insertDesc cnt x ys else x :: y :: ys

/-- Stable sort by descending count; extensionally equal to the
`results.sort((a, b) => bMatches - aMatches)` (JS sort is stable). -/
def sortByCountDesc (cnt : SearchResult → Nat) : List SearchResult → List SearchResult
  | [] => []
  | x :: xs => insertDesc cnt x (sortByCountDesc cnt xs)

/-- Translation of `performIndexSearch(searchData, query, baseUrl, limit)` (lines 23–90). -/
def performIndexSearch (d : SearchData) (query baseUrl : String) (lim : Nat) :
    List SearchResult :=
  match d.titles, d.docnames with
  | some titles, some docnames =>
    match collectIndexResults (queryTermsOf query) baseUrl lim titles docnames [] with
    | (res, true) => res.take lim
    | (res, false) =>
      (sortByCountDesc (fun r => titleMatchCount (queryTermsOf query) r.title) res).take lim
  | _, _ => []

/-! ## Rendered-search-page strategy (lines 130–204) -/

/-- Relative-URL resolution (lines 157–162 and 428–433). -/
def resolveUrl (base url : String) : String :=
  if jsStartsWith url "/" = true then base ++ url
  else if jsStartsWith url "http" = true then url
  else base ++ "/" ++ url

/-- The snippet and type derived for one search-page link: the first
parenthetical of the parent text, else the trimmed next-sibling text cut to
200 characters (lines 167–186). -/
def searchPageSnippetType (l : SLink) : String × String :=
  match extractParen l.parentText.data with
  | some p => (p, p)
  | none =>
    match l.nextText with
    | some nt => (jsTake (jsTrim nt) 200, "")
    | none => ("", "")

/-- The entry pushed for one search-page link (lines 191–198). -/
def mkSearchPageEntry (baseUrl : String) (l : SLink) : SearchResult :=
  { title := cleanTitle (jsTrim l.text)
  , url := resolveUrl baseUrl l.href
  , snippet := jsOr (searchPageSnippetType l).1 "AutoGen documentation"
  , type := (searchPageSnippetType l).2 }

/-- Processing of one link of the "Searching" section (lines 151–198). -/
def searchLinkStep (baseUrl : String) (l : SLink) (acc : List SearchResult) :
    List SearchResult :=
  if l.href = "" ∨ jsTrim l.text = "" then acc
  else if ¬ (jsIncludes (resolveUrl baseUrl l.href) autogenDomain = true) then acc
  else if cleanTitle (jsTrim l.text) = "" then acc
  else acc ++ [mkSearchPageEntry baseUrl l]

/-- The `.each` loop over the links of the section; `return false` at the limit
stops the whole iteration (lines 148–199). -/
def searchSectionScan (baseUrl : String) (lim : Nat) :
    List SLink → List SearchResult → List SearchResult
  | [], acc => acc
  | l :: ls, acc =>
    if lim ≤ acc.length then acc
    else searchSectionScan baseUrl lim ls (searchLinkStep baseUrl l acc)

/-- Mode-(a) extraction from the rendered search page. -/
def extractSearchResults (doc : Doc) (baseUrl : String) (lim : Nat) : List SearchResult :=
  searchSectionScan baseUrl lim doc.searchingLinks []

/-! ## Fallback crawler (`fallbackSearch`, lines 218–480) -/

/-- Query classification (line 224). -/
def isMcpQuery (queryLower : String) : Bool :=
  jsIncludes queryLower "mcp" || jsIncludes queryLower "model context protocol" ||
    jsIncludes queryLower "autogen_ext"

/-- The curated MCP page set (lines 231–248); its base URL is the
unversioned documentation root. -/
def mcpPages : List PageDesc :=
  [ ⟨AUTOGEN_BASE_URL ++ "/docs/ecosystem/integrations", "MCP Integrations"⟩
  , ⟨AUTOGEN_BASE_URL ++ "/docs/reference/agentchat/contrib", "Contrib Modules"⟩
  , ⟨AUTOGEN_BASE_URL ++ "/docs/ecosystem/community", "Community"⟩
  , ⟨AUTOGEN_BASE_URL ++ "/docs/tutorial/code-executors", "Code Executors"⟩
  , ⟨AUTOGEN_BASE_URL ++ "/docs/tutorial/tool-use", "Tool Use"⟩
  , ⟨AUTOGEN_BASE_URL ++ "/docs/ecosystem/ecosystem", "Ecosystem"⟩
  , ⟨AUTOGEN_BASE_URL ++ "/docs/Getting-Started", "Getting Started"⟩
  , ⟨AUTOGEN_BASE_URL ++ "/docs/tutorial/introduction", "Tutorial"⟩
  , ⟨AUTOGEN_BASE_URL ++ "/docs/Use-Cases/agent_chat", "Agent Chat"⟩
  , ⟨AUTOGEN_BASE_URL ++ "/docs/Installation", "Installation"⟩
  , ⟨AUTOGEN_BASE_URL ++ "/docs/FAQ", "FAQ"⟩
  , ⟨AUTOGEN_BASE_URL ++ "/docs/Migration-Guide", "Migration"⟩
  , ⟨AUTOGEN_BASE_URL ++ "/blog", "Blog"⟩ ]

/-- The standard version-scoped page set (lines 251–280). -/
def standardPages (baseUrl : String) : List PageDesc :=
  [ ⟨baseUrl ++ "/user-guide/index.html", "User Guide"⟩
  , ⟨baseUrl ++ "/user-guide/core-user-guide/index.html", "Core Guide"⟩
  , ⟨baseUrl ++ "/user-guide/agentchat-user-guide/index.html", "AgentChat Guide"⟩
  , ⟨baseUrl ++ "/reference/index.html", "API Reference"⟩
  , ⟨baseUrl ++ "/reference/agentchat/index.html", "AgentChat API"⟩
  , ⟨baseUrl ++ "/reference/autogen_core/index.html", "Core API"⟩
  , ⟨baseUrl ++ "/tutorials/index.html", "Tutorials"⟩ ]

/-- Fragment appending — an absent or empty `id` attribute leaves the
URL unchanged. -/
def appendFrag (url : String) : Option String → String
  | some i => if i = "" then url else url ++ "#" ++ i
  | none => url

/-- The entry pushed by the heading scan (lines 313–329). -/
def mkHeadingEntry (page : PageDesc) (h : BHeading) : SearchResult :=
  { title := jsTrim h.text
  , url := appendFrag page.url h.id
  , snippet := jsOr (jsTake (jsTrim h.nextPDivText) 200) (page.type ++ ": " ++ jsTrim h.text)
  , type := page.type }

/-- The heading scan (lines 307–331); note it performs no duplicate check. -/
def headingScan (page : PageDesc) (queryLower : String) (lim : Nat) :
    List BHeading → List SearchResult → List SearchResult
  | [], acc => acc
  | h :: hs, acc =>
    if lim ≤ acc.length then acc
    else headingScan page queryLower lim hs
      (if jsIncludes (jsToLower (jsTrim h.text)) queryLower = true then
        acc ++ [mkHeadingEntry page h]
      else acc)

/-- Title of a block entry: the closest trimmed text of the preceding heading when
one exists, else the page title, else the generic placeholder (line 343). -/
def blockTitleOf (pageTitle : String) : Option HeadingRef → String
  | some hr => jsTrim hr.text
  | none => jsOr pageTitle "AutoGen Documentation"

/-- Fragment of a block entry: the preceding heading id attribute (line 346). -/
def blockFragOf : Option HeadingRef → Option String
  | some hr => hr.id
  | none => none

/-- The entry pushed by the paragraph/div scan (lines 359–364). -/
def mkBlockEntry (page : PageDesc) (pageTitle : String) (b : BBlock) : SearchResult :=
  { title := blockTitleOf pageTitle b.prevHeading
  , url := appendFrag page.url (blockFragOf b.prevHeading)
  , snippet := jsTake (jsTrim b.text) 200
  , type := page.type }

/-- Processing of one `p`/`div` element (lines 337–366), including the
`(url, title)`-pair duplicate check of lines 354–356. -/
def blockStep (page : PageDesc) (pageTitle queryLower : String) (b : BBlock)
    (acc : List SearchResult) : List SearchResult :=
  if jsIncludes (jsToLower (jsTrim b.text)) queryLower = true ∧ 50 < (jsTrim b.text).length then
    if ∃ r ∈ acc, r.url = (mkBlockEntry page pageTitle b).url ∧
        r.title = (mkBlockEntry page pageTitle b).title then acc
    else acc ++ [mkBlockEntry page pageTitle b]
  else acc

/-- The paragraph/div scan (lines 334–367). -/
def blockScan (page : PageDesc) (pageTitle queryLower : String) (lim : Nat) :
    List BBlock → List SearchResult → List SearchResult
  | [], acc => acc
  | b :: bs, acc =>
    if lim ≤ acc.length then acc
    else blockScan page pageTitle queryLower lim bs (blockStep page pageTitle queryLower b acc)

/-- The fixed related-terms list of the MCP pass (line 372). -/
def mcpRelatedTerms : List String :=
  ["autogen_ext", "tools", "extensions", "contrib", "ecosystem"]

/-- Title of a related-terms entry (lines 386–389). -/
def mcpTitleOf (page : PageDesc) (term : String) (e : BMcpEl) : String :=
  jsOr (if e.isHeading then jsTrim e.text else jsTrim e.prevHeadingText)
    (page.type ++ ": " ++ term)

/-- The entry pushed by the related-terms pass (lines 404–410). -/
def mkMcpEntry (page : PageDesc) (term : String) (e : BMcpEl) : SearchResult :=
  { title := mcpTitleOf page term e
  , url := appendFrag page.url e.id
  , snippet := jsTake (jsTrim e.text) 200
  , type := page.type }

/-- Processing of one element of the related-terms pass (lines 382–412),
with its `(url, title)`-pair duplicate check (lines 400–402). -/
def mcpElStep (page : PageDesc) (term : String) (e : BMcpEl)
    (acc : List SearchResult) : List SearchResult :=
  if jsIncludes (jsToLower (jsTrim e.text)) term = true ∧ 20 < (jsTrim e.text).length then
    if ∃ r ∈ acc, r.url = (mkMcpEntry page term e).url ∧
        r.title = (mkMcpEntry page term e).title then acc
    else acc ++ [mkMcpEntry page term e]
  else acc

/-- The element loop of the related-terms pass (lines 379–413). -/
def mcpElsScan (page : PageDesc) (term : String) (lim : Nat) :
    List BMcpEl → List SearchResult → List SearchResult
  | [], acc => acc
  | e :: es, acc =>
    if lim ≤ acc.length then acc
    else mcpElsScan page term lim es (mcpElStep page term e acc)

/-- The related-terms pass over one page (lines 371–416): for each term, if
the page text mentions it, scan all heading/paragraph/div elements. -/
def mcpScan (doc : Doc) (page : PageDesc) (lim : Nat) (acc : List SearchResult) :
    List SearchResult :=
  mcpRelatedTerms.foldl (fun a term =>
    if lim ≤ a.length then a
    else if jsIncludes (jsToLower doc.fullText) term = true then
      mcpElsScan page term lim doc.allEls a
    else a) acc

/-- URL of a link candidate: relative URLs resolve against the unversioned
root for MCP queries, else the version base (lines 428–433). -/
def linkUrlOf (mcp : Bool) (baseUrl : String) (l : BLink) : String :=
  resolveUrl (if mcp then AUTOGEN_BASE_URL else baseUrl) l.href

/-- Snippet of a link candidate: parent text, or the text of the siblings when the
parent text is short, cut to 200, with a placeholder fallback
(lines 442–452). -/
def linkSnippetOf (l : BLink) : String :=
  jsOr
    (jsTake (if (jsTrim l.parentText).length < 50 then jsTrim l.siblingsText
             else jsTrim l.parentText) 200)
    "AutoGen documentation"

/-- The entry pushed by the link scan (lines 460–465). -/
def mkLinkEntry (mcp : Bool) (baseUrl : String) (page : PageDesc) (l : BLink) :
    SearchResult :=
  { title := jsTrim l.text
  , url := linkUrlOf mcp baseUrl l
  , snippet := linkSnippetOf l
  , type := page.type }

/-- Processing of one link (lines 422–467).  Note the duplicate check of
lines 455–457 discards on equal URL OR equal title. -/
def linkStep (page : PageDesc) (queryLower : String) (mcp : Bool) (baseUrl : String)
    (l : BLink) (acc : List SearchResult) : List SearchResult :=
  if l.href = "" ∨ jsTrim l.text = "" ∨ (jsTrim l.text).length < 3 then acc
  else if ¬ (jsIncludes (linkUrlOf mcp baseUrl l) autogenDomain = true) then acc
  else if jsIncludes (jsToLower (jsTrim l.text)) queryLower = true ∨
      jsIncludes (jsToLower (linkUrlOf mcp baseUrl l)) queryLower = true then
    if ∃ r ∈ acc, r.url = (mkLinkEntry mcp baseUrl page l).url ∨
        r.title = (mkLinkEntry mcp baseUrl page l).title then acc
    else acc ++ [mkLinkEntry mcp baseUrl page l]
  else acc

/-- The link loop (lines 419–468). -/
def linkScan (page : PageDesc) (queryLower : String) (mcp : Bool) (baseUrl : String)
    (lim : Nat) : List BLink → List SearchResult → List SearchResult
  | [], acc => acc
  | l :: ls, acc =>
    if lim ≤ acc.length then acc
    else linkScan page queryLower mcp baseUrl lim ls (linkStep page queryLower mcp baseUrl l acc)

/-- The content-conditional part of a page scan (lines 305–368): heading and
block scans run only when the main content mentions the query. -/
def contentPass (doc : Doc) (page : PageDesc) (queryLower : String) (lim : Nat)
    (acc : List SearchResult) : List SearchResult :=
  if jsIncludes (jsToLower doc.mainText) queryLower = true then
    blockScan page (jsOr doc.titleText doc.firstH1Text) queryLower lim doc.blocks
      (headingScan page queryLower lim doc.headings acc)
  else acc

/-- The MCP pass runs only for MCP-classified queries (line 371). -/
def mcpPass (doc : Doc) (page : PageDesc) (mcp : Bool) (lim : Nat)
    (acc : List SearchResult) : List SearchResult :=
  if mcp then mcpScan doc page lim acc else acc

/-- Scans of one fetched page, in source order: content pass, MCP pass, link
scan (lines 298–468). -/
def scanPage (doc : Doc) (page : PageDesc) (queryLower : String) (mcp : Bool)
    (baseUrl : String) (lim : Nat) (acc : List SearchResult) : List SearchResult :=
  linkScan page queryLower mcp baseUrl lim doc.links
    (mcpPass doc page mcp lim (contentPass doc page queryLower lim acc))

/-- The page loop of `fallbackSearch` (lines 283–472): stop at the limit,
skip a page on a network error (the per-page catch) or a non-ok status. -/
def crawlPages (env : Env) (queryLower : String) (mcp : Bool) (baseUrl : String)
    (lim : Nat) : List PageDesc → List SearchResult → List SearchResult
  | [], acc => acc
  | p :: ps, acc =>
    if lim ≤ acc.length then acc
    else crawlPages env queryLower mcp baseUrl lim ps
      (match env.fetch p.url with
       | FetchOutcome.error => acc
       | FetchOutcome.resp ok body =>
         if ok then scanPage (env.loadHtml body) p queryLower mcp baseUrl lim acc else acc)

/-- The final URL deduplication (lines 475–477).  The source keeps an element
iff its index equals the first index with the same URL; the fold below keeps
an element iff no earlier element had its URL — the same list. -/
def dedupByUrl (l : List SearchResult) : List SearchResult :=
  l.foldl (fun acc r => if ∃ s ∈ acc, s.url = r.url then acc else acc ++ [r]) []

/-- Translation of `fallbackSearch(query, limit, version)` (lines 218–480). -/
def fallbackSearch (env : Env) (q : String) (lim : Nat) (v : String) : List SearchResult :=
  (dedupByUrl (crawlPages env (jsToLower q) (isMcpQuery (jsToLower q)) (getVersionUrl v) lim
    (if isMcpQuery (jsToLower q) = true then mcpPages else standardPages (getVersionUrl v))
    [])).take lim

/-! ## Orchestrator (`searchAutoGenDocs`, lines 95–213) -/

def indexUrlOf (v : String) : String :=
  getVersionUrl v ++ "/searchindex.js"

def searchUrlOf (env : Env) (q v : String) : String :=
  getVersionUrl v ++ "/search.html?q=" ++ env.encode q

/-- The candidates of the structured-index phase (lines 107–124): empty on a
non-ok status, a failed `Search.setIndex` match, or a parse exception. -/
def indexPhaseResults (env : Env) (body : String) (ok : Bool) (q : String) (lim : Nat)
    (v : String) : List SearchResult :=
  if ok then
    match env.parseIndex body with
    | some d => performIndexSearch d q (getVersionUrl v) lim
    | none => []
  else []

/-- Models line 121: return the index results when nonempty, else continue. -/
def orElseNonempty (r alt : List SearchResult) : List SearchResult :=
  if 0 < r.length then r else alt

/-- Models line 201: return the truncated page results when nonempty, else
fall back. -/
def pickNonempty (r : List SearchResult) (lim : Nat) (fb : List SearchResult) :
    List SearchResult :=
  if 0 < r.length then r.take lim else fb

/-- Lines 130–207: the rendered-search-page attempt followed by the crawler;
a network error during the search-page fetch lands in the top-level catch
(line 209), which also runs the crawler. -/
def afterIndexPhase (env : Env) (q : String) (lim : Nat) (v : String) : List SearchResult :=
  match env.fetch (searchUrlOf env q v) with
  | FetchOutcome.error => fallbackSearch env q lim v
  | FetchOutcome.resp ok html =>
    if ok then
      pickNonempty (extractSearchResults (env.loadHtml html) (getVersionUrl v) lim) lim
        (fallbackSearch env q lim v)
    else fallbackSearch env q lim v

/-- Translation of `searchAutoGenDocs(query, limit, version)` (lines 95–213).  A network
error during the index fetch lands in the top-level catch, which runs
`fallbackSearch` directly. -/
def searchAutoGenDocs (env : Env) (q : String) (lim : Nat) (v : String) : List SearchResult :=
  match env.fetch (indexUrlOf v) with
  | FetchOutcome.error => fallbackSearch env q lim v
  | FetchOutcome.resp ok body =>
    orElseNonempty (indexPhaseResults env body ok q lim v) (afterIndexPhase env q lim v)

/-- Observer for the structured-index strategy: `Except.error` when the index
fetch throws, otherwise the candidate list of the phase. -/
def indexStrategy (env : Env) (q : String) (lim : Nat) (v : String) :
    Except Unit (List SearchResult) :=
  match env.fetch (indexUrlOf v) with
  | FetchOutcome.error => Except.error ()
  | FetchOutcome.resp ok body => Except.ok (indexPhaseResults env body ok q lim v)

/-- Observer for the rendered-search-page strategy. -/
def renderedStrategy (env : Env) (q : String) (lim : Nat) (v : String) :
    Except Unit (List SearchResult) :=
  match env.fetch (searchUrlOf env q v) with
  | FetchOutcome.error => Except.error ()
  | FetchOutcome.resp ok html =>
    Except.ok (if ok then extractSearchResults (env.loadHtml html) (getVersionUrl v) lim else [])

/-! ## Auxiliary predicates and spec-side definitions -/

/-- Holds iff the fetch produced an ok response. -/
def fetchOk : FetchOutcome → Bool
  | FetchOutcome.error => false
  | FetchOutcome.resp ok _ => ok

/-- A URL inside the AutoGen documentation domain. -/
abbrev goodUrl (s : String) : Prop :=
  jsIncludes s autogenDomain = true

/-- No two entries of the list share a URL. -/
abbrev urlsDistinct (l : List SearchResult) : Prop :=
  l.Pairwise (fun a b => a.url ≠ b.url)

/-- Two entries differing as a `(url, title)` pair (not both equal). -/
abbrev pairDistinct (a b : SearchResult) : Prop :=
  ¬ (a.url = b.url ∧ a.title = b.title)

/-- Two entries differing in the URL and in the title. -/
abbrev fieldDistinct (a b : SearchResult) : Prop :=
  a.url ≠ b.url ∧ a.title ≠ b.title

/-- The reading the spec gives of the index strategy filter: all score-positive
paired documents, in index order, with no truncation during collection.
Written from the words of the spec for comparison with `performIndexSearch`. -/
def indexCandidates (terms : List String) (baseUrl : String) :
    List String → List String → List SearchResult
  | [], _ => []
  | _, [] => []
  | t :: ts, d :: ds =>
    (if 0 < scoreOf terms (jsToLower t) (jsToLower d) then [mkIndexEntry baseUrl t d] else []) ++
      indexCandidates terms baseUrl ts ds

/-- The reading the spec gives of claim C6: re-sort all filtered candidates by
descending title-term count, then truncate to the limit.  Written from the
words of the spec for comparison with `performIndexSearch`. -/
def indexSortThenTruncate (d : SearchData) (query baseUrl : String) (lim : Nat) :
    List SearchResult :=
  match d.titles, d.docnames with
  | some titles, some docnames =>
    (sortByCountDesc (fun r => titleMatchCount (queryTermsOf query) r.title)
      (indexCandidates (queryTermsOf query) baseUrl titles docnames)).take lim
  | _, _ => []

/-- The reading the spec gives of the link-scan duplicate check (claim C9): discard
exactly when an accumulated entry matches in URL AND title.  Written from the
words of the spec for comparison with `linkStep`. -/
def linkStepPairDedup (page : PageDesc) (queryLower : String) (mcp : Bool) (baseUrl : String)
    (l : BLink) (acc : List SearchResult) : List SearchResult :=
  if l.href = "" ∨ jsTrim l.text = "" ∨ (jsTrim l.text).length < 3 then acc
  else if ¬ (jsIncludes (linkUrlOf mcp baseUrl l) autogenDomain = true) then acc
  else if jsIncludes (jsToLower (jsTrim l.text)) queryLower = true ∨
      jsIncludes (jsToLower (linkUrlOf mcp baseUrl l)) queryLower = true then
    if ∃ r ∈ acc, r.url = (mkLinkEntry mcp baseUrl page l).url ∧
        r.title = (mkLinkEntry mcp baseUrl page l).title then acc
    else acc ++ [mkLinkEntry mcp baseUrl page l]
  else acc

/-- The link loop under the pair-dedup reading of the spec. -/
def linkScanPairDedup (page : PageDesc) (queryLower : String) (mcp : Bool) (baseUrl : String)
    (lim : Nat) : List BLink → List SearchResult → List SearchResult
  | [], acc => acc
  | l :: ls, acc =>
    if lim ≤ acc.length then acc
    else linkScanPairDedup page queryLower mcp baseUrl lim ls
      (linkStepPairDedup page queryLower mcp baseUrl l acc)

/-! ## Concrete fixtures used by scenario theorems and counterexamples -/

/-- A document with no observable content. -/
def emptyDoc : Doc := ⟨[], "", "", "", [], [], [], [], ""⟩

/-- An environment in which every fetch raises a network error. -/
def badEnv : Env :=
  { fetch := fun _ => FetchOutcome.error
  , parseIndex := fun _ => none
  , loadHtml := fun _ => emptyDoc
  , encode := fun s => s }

/-- Index fixture of the C7 scenario: one document titled "Agent
Introduction" at path `python/agent-intro`. -/
def envC7 : Env :=
  { fetch := fun u =>
      if u = indexUrlOf "stable" then FetchOutcome.resp true "IDX7" else FetchOutcome.resp false ""
  , parseIndex := fun s =>
      if s = "IDX7" then some ⟨some ["Agent Introduction"], some ["python/agent-intro"]⟩ else none
  , loadHtml := fun _ => emptyDoc
  , encode := fun s => s }

/-- The entry the C7 scenario produces. -/
def eC7 : SearchResult :=
  ⟨"Agent Introduction", "https://microsoft.github.io/autogen/stable/python/agent-intro.html",
    "API Reference", "API Reference"⟩

/-- Index fixture with two documents sharing the path `python/x`: the index
strategy then returns two entries with the same URL. -/
def envC2 : Env :=
  { fetch := fun u =>
      if u = indexUrlOf "stable" then FetchOutcome.resp true "IDX2" else FetchOutcome.resp false ""
  , parseIndex := fun s =>
      if s = "IDX2" then some ⟨some ["agent one", "agent two"], some ["python/x", "python/x"]⟩
      else none
  , loadHtml := fun _ => emptyDoc
  , encode := fun s => s }

/-- The first entry returned in the `envC2` run. -/
def eC2a : SearchResult :=
  ⟨"agent one", "https://microsoft.github.io/autogen/stable/python/x.html",
    "API Reference", "API Reference"⟩

/-- A rendered search page with one result link. -/
def docC4 : Doc := { emptyDoc with searchingLinks := [⟨"Agent Guide", "/agent.html", "", none⟩] }

/-- Environment in which the index fetch raises a network error while the
rendered search page is available and nonempty. -/
def envC4 : Env :=
  { fetch := fun u =>
      if u = indexUrlOf "stable" then FetchOutcome.error
      else if u = getVersionUrl "stable" ++ "/search.html?q=agent" then FetchOutcome.resp true "SP"
      else FetchOutcome.resp false ""
  , parseIndex := fun _ => none
  , loadHtml := fun s => if s = "SP" then docC4 else emptyDoc
  , encode := fun s => s }

/-- The entry the rendered strategy would produce in `envC4`. -/
def c4Entry : SearchResult :=
  ⟨"Agent Guide", "https://microsoft.github.io/autogen/stable/agent.html",
    "AutoGen documentation", ""⟩

/-- A rendered search page whose link sits in a parent with a 201-character
parenthetical annotation. -/
def docC5 : Doc := { emptyDoc with searchingLinks :=
  [⟨"Agent Guide", "/agent.html", String.mk ('(' :: (List.replicate 201 'a' ++ [')'])), none⟩] }

/-- Environment in which the index fetch is non-ok and the search page
serves `docC5`. -/
def envC5 : Env :=
  { fetch := fun u =>
      if u = getVersionUrl "stable" ++ "/search.html?q=agent" then FetchOutcome.resp true "SP"
      else FetchOutcome.resp false ""
  , parseIndex := fun _ => none
  , loadHtml := fun s => if s = "SP" then docC5 else emptyDoc
  , encode := fun s => s }

/-- Index fixture for C6: the first document matches only via its docname
(zero title terms), the second also via its title (one title term). -/
def dC6 : SearchData := ⟨some ["zzz", "agent intro"], some ["python/agent-x", "python/agent"]⟩

/-- Crawl page used in the C9 demonstrations. -/
def pgDemo : PageDesc :=
  ⟨AUTOGEN_BASE_URL ++ "/stable/user-guide/index.html", "User Guide"⟩

/-- Two crawl-page links with the same text but different targets. -/
def lA : BLink := ⟨"agent alpha", "/a.html", "", ""⟩

/-- Second link of the C9 counterexample. -/
def lB : BLink := ⟨"agent alpha", "/b.html", "", ""⟩

/-- A heading matching the query, used twice to show the heading scan keeps
exact duplicates. -/
def hDemo : BHeading := ⟨"agent setup", none, ""⟩

/-- A long matching block, used to instantiate the block-scan lemma. -/
def bDemo : BBlock :=
  ⟨"agent blocks of text that are definitely longer than fifty characters in total", none⟩

/-! # Theorems -/

/-! ## Substring and string lemmas -/

theorem containsSub_nil_sub : ∀ l : List Char, containsSub [] l = true
  | [] => rfl
  | _ :: rest => by
    rw [containsSub]
    simp [containsSub_nil_sub rest, List.isPrefixOf]

theorem isPrefixOf_append_of {l a : List Char} (b : List Char)
    (h : l.isPrefixOf a = true) : l.isPrefixOf (a ++ b) = true := by
  rw [List.isPrefixOf_iff_prefix] at h ⊢
  rcases h with ⟨t, rfl⟩
  exact ⟨t ++ b, by simp⟩

theorem containsSub_append {pat a : List Char} (b : List Char)
    (h : containsSub pat a = true) : containsSub pat (a ++ b) = true := by
  induction a with
  | nil =>
    have hp : pat = [] := by
      rw [containsSub] at h
      simpa using h
    subst hp
    exact containsSub_nil_sub b
  | cons c rest ih =>
    rw [containsSub, Bool.or_eq_true] at h
    rw [List.cons_append, containsSub, Bool.or_eq_true]
    rcases h with h1 | h1
    · exact Or.inl (isPrefixOf_append_of b h1)
    · exact Or.inr (ih h1)

theorem goodUrl_append (s t : String) (h : goodUrl s) : goodUrl (s ++ t) :=
  containsSub_append t.data h

theorem goodUrl_base : goodUrl AUTOGEN_BASE_URL := by decide

theorem goodUrl_version (v : String) : goodUrl (getVersionUrl v) :=
  goodUrl_append _ v (goodUrl_append _ "/" goodUrl_base)

theorem goodUrl_appendFrag (u : String) (i : Option String) (h : goodUrl u) :
    goodUrl (appendFrag u i) := by
  cases i with
  | none => exact h
  | some s =>
    rw [appendFrag]
    split
    · exact h
    · exact goodUrl_append _ s (goodUrl_append _ "#" h)

theorem jsOr_ne_right (a b : String) (hb : b ≠ "") : jsOr a b ≠ "" := by
  rw [jsOr]
  split
  · exact hb
  · assumption

theorem colon_append_ne (a b : String) : a ++ ": " ++ b ≠ "" := by
  intro h
  have h3 : (a.data ++ (": ".data)) ++ b.data = ([] : List Char) := congrArg String.data h
  rcases List.append_eq_nil.1 h3 with ⟨h4, _⟩
  rcases List.append_eq_nil.1 h4 with ⟨_, h5⟩
  exact absurd h5 (by decide)

theorem jsTake_ne_empty (s : String) (n : Nat) (hn : 0 < n) (hs : 0 < s.length) :
    jsTake s n ≠ "" := by
  intro h
  have h2 : s.data.take n = ([] : List Char) := congrArg String.data h
  rcases List.take_eq_nil_iff.1 h2 with h3 | h3
  · omega
  · have : s.length = 0 := by
      show s.data.length = 0
      rw [h3]
      rfl
    omega

theorem docTypeOf_ne_empty (d : String) : docTypeOf d ≠ "" := by
  rw [docTypeOf]
  split_ifs <;> decide

/-! ## Membership-preservation lemmas for the scans -/

theorem searchSectionScan_mem (P : SearchResult → Prop) (baseUrl : String) (lim : Nat)
    (hnew : ∀ l : SLink, jsIncludes (resolveUrl baseUrl l.href) autogenDomain = true →
      P (mkSearchPageEntry baseUrl l)) :
    ∀ (ls : List SLink) (acc : List SearchResult), (∀ e ∈ acc, P e) →
      ∀ e ∈ searchSectionScan baseUrl lim ls acc, P e := by
  intro ls
  induction ls with
  | nil => intro acc hacc e he; exact hacc e he
  | cons l ls ih =>
    intro acc hacc e he
    rw [searchSectionScan] at he
    split at he
    · exact hacc e he
    · refine ih _ ?_ e he
      intro x hx
      rw [searchLinkStep] at hx
      by_cases h1 : l.href = "" ∨ jsTrim l.text = ""
      · rw [if_pos h1] at hx
        exact hacc x hx
      · rw [if_neg h1] at hx
        by_cases h2 : jsIncludes (resolveUrl baseUrl l.href) autogenDomain = true
        · rw [if_neg (not_not.2 h2)] at hx
          by_cases h3 : cleanTitle (jsTrim l.text) = ""
          · rw [if_pos h3] at hx
            exact hacc x hx
          · rw [if_neg h3] at hx
            rcases List.mem_append.1 hx with h4 | h4
            · exact hacc x h4
            · rw [List.mem_singleton] at h4
              subst h4
              exact hnew l h2
        · rw [if_pos h2] at hx
          exact hacc x hx

theorem headingScan_mem (P : SearchResult → Prop) (page : PageDesc) (qL : String) (lim : Nat)
    (hnew : ∀ h : BHeading, P (mkHeadingEntry page h)) :
    ∀ (hs : List BHeading) (acc : List SearchResult), (∀ e ∈ acc, P e) →
      ∀ e ∈ headingScan page qL lim hs acc, P e := by
  intro hs
  induction hs with
  | nil => intro acc hacc e he; exact hacc e he
  | cons h hs ih =>
    intro acc hacc e he
    rw [headingScan] at he
    split at he
    · exact hacc e he
    · refine ih _ ?_ e he
      intro x hx
      split at hx
      · rcases List.mem_append.1 hx with h4 | h4
        · exact hacc x h4
        · rw [List.mem_singleton] at h4
          subst h4
          exact hnew h
      · exact hacc x hx

theorem blockStep_mem (P : SearchResult → Prop) (page : PageDesc) (pt qL : String)
    (hnew : ∀ b : BBlock, 50 < (jsTrim b.text).length → P (mkBlockEntry page pt b))
    (b : BBlock) (acc : List SearchResult) (hacc : ∀ e ∈ acc, P e) :
    ∀ e ∈ blockStep page pt qL b acc, P e := by
  intro x hx
  rw [blockStep] at hx
  split_ifs at hx with h1 h2
  · exact hacc x hx
  · rcases List.mem_append.1 hx with h4 | h4
    · exact hacc x h4
    · rw [List.mem_singleton] at h4
      subst h4
      exact hnew b h1.2
  · exact hacc x hx

theorem blockScan_mem (P : SearchResult → Prop) (page : PageDesc) (pt qL : String) (lim : Nat)
    (hnew : ∀ b : BBlock, 50 < (jsTrim b.text).length → P (mkBlockEntry page pt b)) :
    ∀ (bs : List BBlock) (acc : List SearchResult), (∀ e ∈ acc, P e) →
      ∀ e ∈ blockScan page pt qL lim bs acc, P e := by
  intro bs
  induction bs with
  | nil => intro acc hacc e he; exact hacc e he
  | cons b bs ih =>
    intro acc hacc e he
    rw [blockScan] at he
    split at he
    · exact hacc e he
    · exact ih _ (blockStep_mem P page pt qL hnew b acc hacc) e he

theorem mcpElStep_mem (P : SearchResult → Prop) (page : PageDesc) (term : String)
    (hnew : ∀ e : BMcpEl, 20 < (jsTrim e.text).length → P (mkMcpEntry page term e))
    (el : BMcpEl) (acc : List SearchResult) (hacc : ∀ e ∈ acc, P e) :
    ∀ e ∈ mcpElStep page term el acc, P e := by
  intro x hx
  rw [mcpElStep] at hx
  split_ifs at hx with h1 h2
  · exact hacc x hx
  · rcases List.mem_append.1 hx with h4 | h4
    · exact hacc x h4
    · rw [List.mem_singleton] at h4
      subst h4
      exact hnew el h1.2
  · exact hacc x hx

theorem mcpElsScan_mem (P : SearchResult → Prop) (page : PageDesc) (term : String) (lim : Nat)
    (hnew : ∀ e : BMcpEl, 20 < (jsTrim e.text).length → P (mkMcpEntry page term e)) :
    ∀ (es : List BMcpEl) (acc : List SearchResult), (∀ e ∈ acc, P e) →
      ∀ e ∈ mcpElsScan page term lim es acc, P e := by
  intro es
  induction es with
  | nil => intro acc hacc e he; exact hacc e he
  | cons el es ih =>
    intro acc hacc e he
    rw [mcpElsScan] at he
    split at he
    · exact hacc e he
    · exact ih _ (mcpElStep_mem P page term hnew el acc hacc) e he

theorem foldl_mem_pres {α : Type} (P : SearchResult → Prop)
    (f : List SearchResult → α → List SearchResult)
    (hf : ∀ a x, (∀ e ∈ a, P e) → ∀ e ∈ f a x, P e) :
    ∀ (l : List α) (a : List SearchResult), (∀ e ∈ a, P e) → ∀ e ∈ l.foldl f a, P e := by
  intro l
  induction l with
  | nil => intro a ha e he; exact ha e he
  | cons x l ih =>
    intro a ha e he
    rw [List.foldl_cons] at he
    exact ih _ (hf a x ha) e he

theorem mcpScan_mem (P : SearchResult → Prop) (doc : Doc) (page : PageDesc) (lim : Nat)
    (hnew : ∀ (term : String) (e : BMcpEl), 20 < (jsTrim e.text).length →
      P (mkMcpEntry page term e)) :
    ∀ (acc : List SearchResult), (∀ e ∈ acc, P e) → ∀ e ∈ mcpScan doc page lim acc, P e := by
  intro acc hacc e he
  rw [mcpScan] at he
  refine foldl_mem_pres P _ ?_ mcpRelatedTerms acc hacc e he
  intro a term ha x hx
  split at hx
  · exact ha x hx
  · split at hx
    · exact mcpElsScan_mem P page term lim (hnew term) doc.allEls a ha x hx
    · exact ha x hx

theorem linkStep_mem (P : SearchResult → Prop) (page : PageDesc) (qL : String) (mcp : Bool)
    (baseUrl : String)
    (hnew : ∀ l : BLink, jsIncludes (linkUrlOf mcp baseUrl l) autogenDomain = true →
      P (mkLinkEntry mcp baseUrl page l))
    (l : BLink) (acc : List SearchResult) (hacc : ∀ e ∈ acc, P e) :
    ∀ e ∈ linkStep page qL mcp baseUrl l acc, P e := by
  intro x hx
  rw [linkStep] at hx
  by_cases h1 : l.href = "" ∨ jsTrim l.text = "" ∨ (jsTrim l.text).length < 3
  · rw [if_pos h1] at hx
    exact hacc x hx
  · rw [if_neg h1] at hx
    by_cases h2 : jsIncludes (linkUrlOf mcp baseUrl l) autogenDomain = true
    · rw [if_neg (not_not.2 h2)] at hx
      by_cases h3 : jsIncludes (jsToLower (jsTrim l.text)) qL = true ∨
          jsIncludes (jsToLower (linkUrlOf mcp baseUrl l)) qL = true
      · rw [if_pos h3] at hx
        by_cases h4 : ∃ r ∈ acc, r.url = (mkLinkEntry mcp baseUrl page l).url ∨
            r.title = (mkLinkEntry mcp baseUrl page l).title
        · rw [if_pos h4] at hx
          exact hacc x hx
        · rw [if_neg h4] at hx
          rcases List.mem_append.1 hx with h5 | h5
          · exact hacc x h5
          · rw [List.mem_singleton] at h5
            subst h5
            exact hnew l h2
      · rw [if_neg h3] at hx
        exact hacc x hx
    · rw [if_pos h2] at hx
      exact hacc x hx

theorem linkScan_mem (P : SearchResult → Prop) (page : PageDesc) (qL : String) (mcp : Bool)
    (baseUrl : String) (lim : Nat)
    (hnew : ∀ l : BLink, jsIncludes (linkUrlOf mcp baseUrl l) autogenDomain = true →
      P (mkLinkEntry mcp baseUrl page l)) :
    ∀ (ls : List BLink) (acc : List SearchResult), (∀ e ∈ acc, P e) →
      ∀ e ∈ linkScan page qL mcp baseUrl lim ls acc, P e := by
  intro ls
  induction ls with
  | nil => intro acc hacc e he; exact hacc e he
  | cons l ls ih =>
    intro acc hacc e he
    rw [linkScan] at he
    split at he
    · exact hacc e he
    · exact ih _ (linkStep_mem P page qL mcp baseUrl hnew l acc hacc) e he

theorem scanPage_mem (P : SearchResult → Prop) (doc : Doc) (page : PageDesc) (qL : String)
    (mcp : Bool) (baseUrl : String) (lim : Nat)
    (hh : ∀ h : BHeading, P (mkHeadingEntry page h))
    (hb : ∀ (pt : String) (b : BBlock), 50 < (jsTrim b.text).length → P (mkBlockEntry page pt b))
    (hm : ∀ (term : String) (e : BMcpEl), 20 < (jsTrim e.text).length →
      P (mkMcpEntry page term e))
    (hl : ∀ l : BLink, jsIncludes (linkUrlOf mcp baseUrl l) autogenDomain = true →
      P (mkLinkEntry mcp baseUrl page l)) :
    ∀ (acc : List SearchResult), (∀ e ∈ acc, P e) →
      ∀ e ∈ scanPage doc page qL mcp baseUrl lim acc, P e := by
  intro acc hacc e he
  rw [scanPage] at he
  refine linkScan_mem P page qL mcp baseUrl lim hl doc.links _ ?_ e he
  intro x hx
  rw [mcpPass] at hx
  have hcontent : ∀ y ∈ contentPass doc page qL lim acc, P y := by
    intro y hy
    rw [contentPass] at hy
    split at hy
    · exact blockScan_mem P page _ qL lim (hb _) doc.blocks _
        (headingScan_mem P page qL lim hh doc.headings acc hacc) y hy
    · exact hacc y hy
  split at hx
  · exact mcpScan_mem P doc page lim hm _ hcontent x hx
  · exact hcontent x hx

theorem crawlPages_mem (P : SearchResult → Prop) (env : Env) (qL : String) (mcp : Bool)
    (baseUrl : String) (lim : Nat) :
    ∀ (pages : List PageDesc) (acc : List SearchResult),
      (∀ p ∈ pages, ∀ (doc : Doc) (a : List SearchResult), (∀ e ∈ a, P e) →
        ∀ e ∈ scanPage doc p qL mcp baseUrl lim a, P e) →
      (∀ e ∈ acc, P e) → ∀ e ∈ crawlPages env qL mcp baseUrl lim pages acc, P e := by
  intro pages
  induction pages with
  | nil => intro acc _ hacc e he; exact hacc e he
  | cons p ps ih =>
    intro acc hpages hacc e he
    rw [crawlPages] at he
    split at he
    · exact hacc e he
    · refine ih _ (fun p' hp' => hpages p' (List.mem_cons_of_mem p hp')) ?_ e he
      intro x hx
      split at hx
      · exact hacc x hx
      · split at hx
        · exact hpages p (List.mem_cons_self p ps) _ acc hacc x hx
        · exact hacc x hx

theorem dedupByUrl_subset : ∀ (l : List SearchResult) (e : SearchResult),
    e ∈ dedupByUrl l → e ∈ l := by
  have key : ∀ (l acc : List SearchResult) (e : SearchResult),
      e ∈ l.foldl (fun acc r => if ∃ s ∈ acc, s.url = r.url then acc else acc ++ [r]) acc →
      e ∈ acc ∨ e ∈ l := by
    intro l
    induction l with
    | nil => intro acc e he; exact Or.inl he
    | cons r l ih =>
      intro acc e he
      rw [List.foldl_cons] at he
      rcases ih _ e he with h1 | h1
      · split at h1
        · exact Or.inl h1
        · rcases List.mem_append.1 h1 with h2 | h2
          · exact Or.inl h2
          · rw [List.mem_singleton] at h2
            exact Or.inr (h2 ▸ List.mem_cons_self r l)
      · exact Or.inr (List.mem_cons_of_mem r h1)
  intro l e he
  rcases key l [] e he with h | h
  · cases h
  · exact h

theorem insertDesc_mem (cnt : SearchResult → Nat) (x : SearchResult) :
    ∀ (l : List SearchResult) (e : SearchResult), e ∈ insertDesc cnt x l → e = x ∨ e ∈ l := by
  intro l
  induction l with
  | nil =>
    intro e he
    rw [insertDesc, List.mem_singleton] at he
    exact Or.inl he
  | cons y ys ih =>
    intro e he
    rw [insertDesc] at he
    split at he
    · rcases List.mem_cons.1 he with h | h
      · exact Or.inr (h ▸ List.mem_cons_self y ys)
      · rcases ih e h with h2 | h2
        · exact Or.inl h2
        · exact Or.inr (List.mem_cons_of_mem y h2)
    · rcases List.mem_cons.1 he with h | h
      · exact Or.inl h
      · exact Or.inr h

theorem sortByCountDesc_subset (cnt : SearchResult → Nat) :
    ∀ (l : List SearchResult) (e : SearchResult), e ∈ sortByCountDesc cnt l → e ∈ l := by
  intro l
  induction l with
  | nil => intro e he; exact absurd he (by simp [sortByCountDesc])
  | cons x xs ih =>
    intro e he
    rw [sortByCountDesc] at he
    rcases insertDesc_mem cnt x _ e he with h | h
    · exact h ▸ List.mem_cons_self x xs
    · exact List.mem_cons_of_mem x (ih e h)

theorem collectIndexResults_mem (P : SearchResult → Prop) (terms : List String)
    (baseUrl : String) (lim : Nat)
    (hnew : ∀ t d : String, P (mkIndexEntry baseUrl t d)) :
    ∀ (ts ds : List String) (acc : List SearchResult), (∀ e ∈ acc, P e) →
      ∀ e ∈ (collectIndexResults terms baseUrl lim ts ds acc).1, P e := by
  intro ts
  induction ts with
  | nil => intro ds acc hacc e he; exact hacc e he
  | cons t ts ih =>
    intro ds acc hacc e he
    cases ds with
    | nil =>
      rw [collectIndexResults] at he
      split at he <;> exact hacc e he
    | cons d ds =>
      rw [collectIndexResults] at he
      split at he
      · exact hacc e he
      · refine ih ds _ ?_ e he
        intro x hx
        split at hx
        · rcases List.mem_append.1 hx with h4 | h4
          · exact hacc x h4
          · rw [List.mem_singleton] at h4
            subst h4
            exact hnew t d
        · exact hacc x hx

theorem performIndexSearch_mem (P : SearchResult → Prop) (d : SearchData) (q baseUrl : String)
    (lim : Nat) (hnew : ∀ t dn : String, P (mkIndexEntry baseUrl t dn)) :
    ∀ e ∈ performIndexSearch d q baseUrl lim, P e := by
  intro e he
  rw [performIndexSearch] at he
  rcases d with ⟨ot, odn⟩
  rcases ot with _ | ts <;> rcases odn with _ | ds
  · cases he
  · cases he
  · cases he
  · dsimp only at he
    rcases hc : collectIndexResults (queryTermsOf q) baseUrl lim ts ds [] with ⟨res, flag⟩
    have hres : ∀ x ∈ res, P x := by
      intro x hx
      have := collectIndexResults_mem P (queryTermsOf q) baseUrl lim hnew ts ds []
        (by intro y hy; cases hy) x
      rw [hc] at this
      exact this hx
    rw [hc] at he
    cases flag
    · exact hres e (sortByCountDesc_subset _ _ e (List.take_subset lim _ he))
    · exact hres e (List.take_subset lim _ he)

/-! ## Assembly: membership through the whole cascade -/

theorem goodUrl_mcpPages : ∀ p ∈ mcpPages, goodUrl p.url := by decide

theorem goodUrl_standardPages (baseUrl : String) (hb : goodUrl baseUrl) :
    ∀ p ∈ standardPages baseUrl, goodUrl p.url := by
  intro p hp
  simp only [standardPages, List.mem_cons, List.not_mem_nil, or_false] at hp
  rcases hp with rfl | rfl | rfl | rfl | rfl | rfl | rfl <;> exact goodUrl_append _ _ hb

theorem fallbackSearch_mem (P : SearchResult → Prop) (env : Env) (q : String) (lim : Nat)
    (v : String)
    (hscan : ∀ p ∈ (if isMcpQuery (jsToLower q) = true then mcpPages
        else standardPages (getVersionUrl v)),
      ∀ (doc : Doc) (a : List SearchResult), (∀ e ∈ a, P e) →
        ∀ e ∈ scanPage doc p (jsToLower q) (isMcpQuery (jsToLower q)) (getVersionUrl v) lim a,
          P e) :
    ∀ e ∈ fallbackSearch env q lim v, P e := by
  intro e he
  rw [fallbackSearch] at he
  have h1 := List.take_subset lim _ he
  have h2 := dedupByUrl_subset _ e h1
  exact crawlPages_mem P env (jsToLower q) (isMcpQuery (jsToLower q)) (getVersionUrl v) lim
    _ [] hscan (by intro y hy; cases hy) e h2

theorem searchAutoGenDocs_mem (P : SearchResult → Prop) (env : Env) (q : String) (lim : Nat)
    (v : String)
    (hidx : ∀ t dn : String, P (mkIndexEntry (getVersionUrl v) t dn))
    (hsp : ∀ l : SLink, jsIncludes (resolveUrl (getVersionUrl v) l.href) autogenDomain = true →
      P (mkSearchPageEntry (getVersionUrl v) l))
    (hfb : ∀ e ∈ fallbackSearch env q lim v, P e) :
    ∀ e ∈ searchAutoGenDocs env q lim v, P e := by
  intro e he
  rw [searchAutoGenDocs] at he
  split at he
  · exact hfb e he
  · rw [orElseNonempty] at he
    split at he
    · rw [indexPhaseResults] at he
      split at he
      · split at he
        · exact performIndexSearch_mem P _ q (getVersionUrl v) lim hidx e he
        · cases he
      · cases he
    · rw [afterIndexPhase] at he
      split at he
      · exact hfb e he
      · split at he
        · rw [pickNonempty] at he
          split at he
          · have h1 := List.take_subset lim _ he
            exact searchSectionScan_mem P (getVersionUrl v) lim hsp _ []
              (by intro y hy; cases hy) e h1
          · exact hfb e he
        · exact hfb e he

/-! ## Claim C8: every returned URL is inside the documentation domain -/

/-- C8 (confirmed): for every query, limit and version, every entry of the
sequence returned by `searchAutoGenDocs` has a URL containing the AutoGen
documentation domain `microsoft.github.io/autogen`; each strategy either
constructs URLs under the version base (or the domain-specific base) or
explicitly discards candidates whose resolved URL lies outside the
domain. -/
theorem resolution_urls_in_domain (env : Env) (q : String) (lim : Nat) (v : String)
    (e : SearchResult) (he : e ∈ searchAutoGenDocs env q lim v) :
    jsIncludes e.url autogenDomain = true := by
  refine searchAutoGenDocs_mem (fun r => goodUrl r.url) env q lim v ?_ ?_ ?_ e he
  · intro t dn
    exact goodUrl_append _ _ (goodUrl_append _ _ (goodUrl_append _ _ (goodUrl_version v)))
  · intro l h
    exact h
  · refine fallbackSearch_mem _ env q lim v ?_
    intro p hp doc a ha
    have hpg : goodUrl p.url := by
      split at hp
      · exact goodUrl_mcpPages p hp
      · exact goodUrl_standardPages _ (goodUrl_version v) p hp
    refine scanPage_mem _ doc p _ _ _ lim ?_ ?_ ?_ ?_ a ha
    · intro h
      exact goodUrl_appendFrag _ _ hpg
    · intro pt b _
      exact goodUrl_appendFrag _ _ hpg
    · intro term el _
      exact goodUrl_appendFrag _ _ hpg
    · intro l h
      exact h

/-- Witness for C8: the entry produced in the `envC7` run lies in the
domain. -/
theorem resolution_urls_in_domain_witness :
    eC7 ∈ searchAutoGenDocs envC7 "agent" 5 "stable" ∧
      jsIncludes eC7.url autogenDomain = true :=
  ⟨by decide, resolution_urls_in_domain envC7 "agent" 5 "stable" eC7 (by decide)⟩

/-! ## Claim C5: snippets -/

set_option maxRecDepth 10000 in
/-- C5, counterexample: a rendered-search-page link whose parent text carries
a 201-character parenthetical annotation produces an entry whose snippet is
longer than 200 characters — the parenthetical branch does not truncate. -/
theorem snippet_over_200_exists :
    (searchAutoGenDocs envC5 "agent" 10 "stable").any
      (fun e => decide (200 < e.snippet.length)) = true := by decide

/-- C5 as amended: every entry of every returned sequence has a nonempty
snippet (a placeholder is substituted whenever no context is extractable).
The 200-character bound holds only on the branches that truncate
(next-sibling context, heading next-paragraph context, block scans, link
scans); the rendered-page parenthetical snippet and the heading-scan
fallback snippet are taken verbatim and can exceed 200 characters. -/
theorem resolution_snippets_nonempty (env : Env) (q : String) (lim : Nat) (v : String)
    (e : SearchResult) (he : e ∈ searchAutoGenDocs env q lim v) :
    e.snippet ≠ "" := by
  refine searchAutoGenDocs_mem (fun r => r.snippet ≠ "") env q lim v ?_ ?_ ?_ e he
  · intro t dn
    exact docTypeOf_ne_empty dn
  · intro l _
    exact jsOr_ne_right _ _ (by decide)
  · refine fallbackSearch_mem _ env q lim v ?_
    intro p _ doc a ha
    refine scanPage_mem _ doc p _ _ _ lim ?_ ?_ ?_ ?_ a ha
    · intro h
      exact jsOr_ne_right _ _ (colon_append_ne _ _)
    · intro pt b hb
      exact jsTake_ne_empty _ 200 (by omega) (by omega)
    · intro term el hel
      exact jsTake_ne_empty _ 200 (by omega) (by omega)
    · intro l _
      exact jsOr_ne_right _ _ (by decide)

/-- Witness for the amended theorem of C5: the first entry of the `envC2` run has
a nonempty snippet. -/
theorem resolution_snippets_nonempty_witness :
    eC2a ∈ searchAutoGenDocs envC2 "agent" 10 "stable" ∧ eC2a.snippet ≠ "" :=
  ⟨by decide, resolution_snippets_nonempty envC2 "agent" 10 "stable" eC2a (by decide)⟩

/-! ## Claim C1: total failure yields an empty sequence, not an error -/

theorem crawlPages_no_ok (env : Env) (qL : String) (mcp : Bool) (baseUrl : String) (lim : Nat)
    (h : ∀ u, fetchOk (env.fetch u) = false) :
    ∀ (pages : List PageDesc) (acc : List SearchResult),
      crawlPages env qL mcp baseUrl lim pages acc = acc := by
  intro pages
  induction pages with
  | nil => intro acc; rfl
  | cons p ps ih =>
    intro acc
    rw [crawlPages]
    split
    · rfl
    · have hp := h p.url
      rcases hf : env.fetch p.url with _ | ⟨ok, body⟩
      · exact ih acc
      · rw [hf] at hp
        have hok : ok = false := hp
        subst hok
        exact ih acc

theorem fallbackSearch_no_ok (env : Env) (q : String) (lim : Nat) (v : String)
    (h : ∀ u, fetchOk (env.fetch u) = false) : fallbackSearch env q lim v = [] := by
  rw [fallbackSearch, crawlPages_no_ok env _ _ _ lim h]
  simp [dedupByUrl]

/-- C1 (confirmed): `searchAutoGenDocs` is a total function in the model (the
try/catch structure of the source is encoded in the `FetchOutcome.error` case
splits, so no exception reaches the caller), and whenever no fetch succeeds
— every URL yields a network error or a non-ok status, so every strategy
yields nothing — the result is the empty sequence rather than an error.
The witness instantiates the domain-specific scenario: query "mcp", all
curated page fetches failing. -/
theorem resolution_total_failure_empty (env : Env) (q : String) (lim : Nat) (v : String)
    (h : ∀ u, fetchOk (env.fetch u) = false) : searchAutoGenDocs env q lim v = [] := by
  rw [searchAutoGenDocs]
  have h1 := h (indexUrlOf v)
  rcases hf : env.fetch (indexUrlOf v) with _ | ⟨ok, body⟩
  · exact fallbackSearch_no_ok env q lim v h
  · rw [hf] at h1
    have hok : ok = false := h1
    subst hok
    show afterIndexPhase env q lim v = []
    rw [afterIndexPhase]
    have h2 := h (searchUrlOf env q v)
    rcases hf2 : env.fetch (searchUrlOf env q v) with _ | ⟨ok2, html⟩
    · exact fallbackSearch_no_ok env q lim v h
    · rw [hf2] at h2
      have hok2 : ok2 = false := h2
      subst hok2
      show fallbackSearch env q lim v = []
      exact fallbackSearch_no_ok env q lim v h

/-- Witness for C1: the query "mcp" is domain-specific, every fetch errors,
and the result is the empty sequence. -/
theorem resolution_total_failure_empty_witness :
    (∀ u, fetchOk (badEnv.fetch u) = false) ∧
      searchAutoGenDocs badEnv "mcp" 10 "stable" = [] :=
  ⟨fun _ => rfl, resolution_total_failure_empty badEnv "mcp" 10 "stable" (fun _ => rfl)⟩

/-! ## Claim C3: the result length never exceeds the limit -/

theorem performIndexSearch_length_le (d : SearchData) (q baseUrl : String) (lim : Nat) :
    (performIndexSearch d q baseUrl lim).length ≤ lim := by
  rw [performIndexSearch]
  split
  · split
    · exact List.length_take_le lim _
    · exact List.length_take_le lim _
  · exact Nat.zero_le lim

theorem fallbackSearch_length_le (env : Env) (q : String) (lim : Nat) (v : String) :
    (fallbackSearch env q lim v).length ≤ lim := by
  rw [fallbackSearch]
  exact List.length_take_le lim _

/-- C3 (confirmed): for every environment, query, version and limit L ≥ 0
(a natural number), the sequence returned by `searchAutoGenDocs` has length
at most L on every strategy path; in particular L = 0 yields the empty
sequence. -/
theorem resolution_length_le_limit (env : Env) (q : String) (lim : Nat) (v : String) :
    (searchAutoGenDocs env q lim v).length ≤ lim := by
  rw [searchAutoGenDocs]
  split
  · exact fallbackSearch_length_le env q lim v
  · rw [orElseNonempty]
    split
    · rw [indexPhaseResults.eq_def]
      split
      · split
        · exact performIndexSearch_length_le _ q _ lim
        · exact Nat.zero_le lim
      · exact Nat.zero_le lim
    · rw [afterIndexPhase]
      split
      · exact fallbackSearch_length_le env q lim v
      · split
        · rw [pickNonempty]
          split
          · exact List.length_take_le lim _
          · exact fallbackSearch_length_le env q lim v
        · exact fallbackSearch_length_le env q lim v

/-! ## Claim C2: URL deduplication -/

/-- C2, counterexample: with an index whose two documents share the path
`python/x`, the structured-index strategy returns two entries with the same
URL — the orchestrator applies no URL deduplication to index results. -/
theorem index_path_duplicate_urls :
    ¬ urlsDistinct (searchAutoGenDocs envC2 "agent" 10 "stable") := by decide

theorem dedupByUrl_pairwise : ∀ l : List SearchResult, urlsDistinct (dedupByUrl l) := by
  have key : ∀ (l acc : List SearchResult), urlsDistinct acc →
      urlsDistinct (l.foldl
        (fun acc r => if ∃ s ∈ acc, s.url = r.url then acc else acc ++ [r]) acc) := by
    intro l
    induction l with
    | nil => intro acc h; exact h
    | cons r l ih =>
      intro acc h
      rw [List.foldl_cons]
      refine ih _ ?_
      split
      · exact h
      · rename_i hn
        show List.Pairwise (fun a b => a.url ≠ b.url) (acc ++ [r])
        rw [List.pairwise_append]
        refine ⟨h, by simp, ?_⟩
        intro a ha b hb
        rw [List.mem_singleton] at hb
        subst hb
        intro hurl
        exact hn ⟨a, ha, hurl⟩
  intro l
  exact key l [] List.Pairwise.nil

/-- C2 as amended: deduplication by URL (first occurrence wins, preserving
order) is applied by the fallback crawler before its final truncation, so
crawler outputs never contain two entries with the same URL; the
structured-index and rendered-search-page strategies return their candidate
lists without URL deduplication, and their outputs can repeat a URL (see the
counterexample). -/
theorem fallbackSearch_urls_distinct (env : Env) (q : String) (lim : Nat) (v : String) :
    urlsDistinct (fallbackSearch env q lim v) := by
  rw [fallbackSearch]
  exact (dedupByUrl_pairwise _).sublist (List.take_sublist lim _)

/-! ## Claim C4: strategy order and fallthrough -/

/-- C4, counterexample: in `envC4` the index fetch raises a network error,
the rendered strategy would produce a nonempty result, yet the operation
returns the (empty) crawler result — the rendered-search-page strategy is
not attempted when the index fetch throws, contradicting the claim that a
fetch failure of the index falls through to the rendered strategy. -/
theorem index_fetch_error_skips_rendered :
    indexStrategy envC4 "agent" 10 "stable" = Except.error () ∧
      renderedStrategy envC4 "agent" 10 "stable" = Except.ok [c4Entry] ∧
      searchAutoGenDocs envC4 "agent" 10 "stable" ≠ [c4Entry].take 10 :=
  ⟨rfl, rfl, by decide⟩

/-- C4 as amended: the strategies run in the order structured index →
rendered search page → fallback crawler, and the first nonempty result set
is returned without running later strategies; when the index phase completes
with zero candidates (non-ok status, parse failure, or no matches) the
rendered strategy is attempted, and when that also completes with zero
candidates the crawler runs; but a network-level fetch error in the index or
rendered fetch jumps directly to the crawler (skipping the rendered strategy
when the index fetch throws). -/
theorem resolution_cascade_eq (env : Env) (q : String) (lim : Nat) (v : String) :
    searchAutoGenDocs env q lim v =
      (match indexStrategy env q lim v with
       | Except.error _ => fallbackSearch env q lim v
       | Except.ok r1 =>
         if 0 < r1.length then r1
         else
           match renderedStrategy env q lim v with
           | Except.error _ => fallbackSearch env q lim v
           | Except.ok r2 =>
             if 0 < r2.length then r2.take lim else fallbackSearch env q lim v) := by
  rw [searchAutoGenDocs, indexStrategy, renderedStrategy, afterIndexPhase]
  rcases env.fetch (indexUrlOf v) with _ | ⟨ok, body⟩
  · rfl
  · dsimp only
    rw [orElseNonempty]
    by_cases h1 : 0 < (indexPhaseResults env body ok q lim v).length
    · rw [if_pos h1, if_pos h1]
    · rw [if_neg h1, if_neg h1]
      rcases env.fetch (searchUrlOf env q v) with _ | ⟨ok2, html⟩
      · rfl
      · dsimp only
        cases ok2
        · simp
        · simp [pickNonempty]

/-! ## Claim C6: the secondary sort of the structured-index strategy -/

/-- C6, counterexample: with limit 1 and two score-positive documents, the
scan collects only the first (zero title-term matches) before sorting, so
the returned entry differs from the sort-all-then-truncate reading of the spec,
which would return the second document (one title-term match). -/
theorem index_truncates_before_sort :
    performIndexSearch dC6 "agent" "B" 1 ≠ indexSortThenTruncate dC6 "agent" "B" 1 := by decide

theorem collectIndexResults_eq_take (terms : List String) (b : String) (lim : Nat) :
    ∀ (ts ds : List String) (acc : List SearchResult), ts.length ≤ ds.length →
      collectIndexResults terms b lim ts ds acc =
        (acc ++ (indexCandidates terms b ts ds).take (lim - acc.length), false) := by
  intro ts
  induction ts with
  | nil =>
    intro ds acc _
    simp [collectIndexResults, indexCandidates]
  | cons t ts ih =>
    intro ds acc h
    cases ds with
    | nil => simp at h
    | cons d ds =>
      rw [collectIndexResults]
      by_cases hl : lim ≤ acc.length
      · rw [if_pos hl]
        have h0 : lim - acc.length = 0 := Nat.sub_eq_zero_of_le hl
        simp [h0]
      · rw [if_neg hl]
        have hlt : acc.length < lim := Nat.lt_of_not_le hl
        by_cases hs : 0 < scoreOf terms (jsToLower t) (jsToLower d)
        · rw [if_pos hs, ih ds _ (Nat.le_of_succ_le_succ h)]
          rw [indexCandidates, if_pos hs]
          have harith : lim - acc.length = (lim - (acc ++ [mkIndexEntry b t d]).length) + 1 := by
            simp only [List.length_append, List.length_singleton]
            omega
          rw [harith, List.singleton_append, List.take_succ_cons]
          simp
        · rw [if_neg hs, ih ds _ (Nat.le_of_succ_le_succ h)]
          rw [indexCandidates, if_neg hs]
          simp

/-- C6 as amended: during the index scan, candidates are collected in index
order only until the limit is reached; that collected prefix — not the full
filtered candidate set — is then re-sorted by descending count of query
terms found in the title (ignoring the original +3/+2 score), and the final
slice to the limit is a no-op.  The title-term-count ordering is therefore
authoritative only within the first `limit` score-positive documents in
index order. -/
theorem performIndexSearch_sorts_collected_prefix (d : SearchData) (q b : String) (lim : Nat)
    (ts ds : List String) (h1 : d.titles = some ts) (h2 : d.docnames = some ds)
    (h3 : ts.length ≤ ds.length) :
    performIndexSearch d q b lim =
      (sortByCountDesc (fun r => titleMatchCount (queryTermsOf q) r.title)
        ((indexCandidates (queryTermsOf q) b ts ds).take lim)).take lim := by
  rcases d with ⟨dt, dn⟩
  simp only at h1 h2
  subst h1
  subst h2
  rw [performIndexSearch]
  dsimp only
  rw [collectIndexResults_eq_take (queryTermsOf q) b lim ts ds [] h3]
  simp

/-- Witness for the amended theorem of C6, at the counterexample fixture. -/
theorem performIndexSearch_sorts_collected_prefix_witness :
    dC6.titles = some ["zzz", "agent intro"] ∧
      dC6.docnames = some ["python/agent-x", "python/agent"] ∧
      performIndexSearch dC6 "agent" "B" 1 =
        (sortByCountDesc (fun r => titleMatchCount (queryTermsOf "agent") r.title)
          ((indexCandidates (queryTermsOf "agent") "B" ["zzz", "agent intro"]
            ["python/agent-x", "python/agent"]).take 1)).take 1 :=
  ⟨rfl, rfl,
    performIndexSearch_sorts_collected_prefix dC6 "agent" "B" 1 _ _ rfl rfl (by decide)⟩

/-! ## Claim C7: the "Agent Introduction" scenario -/

/-- C7 (confirmed): for the query "agent" with limit 5 and version "stable",
with the structured index parsing to a table containing the document titled
"Agent Introduction" at path `python/agent-intro`, the returned sequence
includes an entry titled "Agent Introduction" whose URL is under the
version base URL and ends with `/python/agent-intro.html`, with category
"API Reference" (inferred from the `python/` path segment). -/
theorem agent_intro_scenario :
    (searchAutoGenDocs envC7 "agent" 5 "stable").any (fun e =>
      e.title == "Agent Introduction" &&
      jsStartsWith e.url (getVersionUrl "stable") &&
      jsEndsWith e.url "/python/agent-intro.html" &&
      e.type == "API Reference") = true := by decide

/-! ## Claim C9: within-page duplicate checks -/

/-- C9, counterexample: two links with the same text but different targets;
the link scan of the source discards the second because its title alone matches
an accumulated entry, while the pair-dedup reading of the spec would keep
it.  The duplicate check of the link scan is by URL OR title, not by the
pair. -/
theorem link_scan_dedup_not_pair :
    linkScan pgDemo "agent" false (getVersionUrl "stable") 10 [lA, lB] [] ≠
      linkScanPairDedup pgDemo "agent" false (getVersionUrl "stable") 10 [lA, lB] [] := by
  decide

theorem blockStep_pairDistinct (page : PageDesc) (pt qL : String) (b : BBlock)
    (acc : List SearchResult) (h : acc.Pairwise pairDistinct) :
    (blockStep page pt qL b acc).Pairwise pairDistinct := by
  rw [blockStep]
  split
  · split
    · exact h
    · rename_i hg hn
      show List.Pairwise pairDistinct (acc ++ [mkBlockEntry page pt b])
      rw [List.pairwise_append]
      refine ⟨h, by simp, ?_⟩
      intro a ha x hx
      rw [List.mem_singleton] at hx
      subst hx
      intro hc
      exact hn ⟨a, ha, hc⟩
  · exact h

theorem blockScan_pairDistinct (page : PageDesc) (pt qL : String) (lim : Nat) :
    ∀ (bs : List BBlock) (acc : List SearchResult), acc.Pairwise pairDistinct →
      (blockScan page pt qL lim bs acc).Pairwise pairDistinct := by
  intro bs
  induction bs with
  | nil => intro acc h; exact h
  | cons b bs ih =>
    intro acc h
    rw [blockScan]
    split
    · exact h
    · exact ih _ (blockStep_pairDistinct page pt qL b acc h)

theorem mcpElStep_pairDistinct (page : PageDesc) (term : String) (el : BMcpEl)
    (acc : List SearchResult) (h : acc.Pairwise pairDistinct) :
    (mcpElStep page term el acc).Pairwise pairDistinct := by
  rw [mcpElStep]
  split
  · split
    · exact h
    · rename_i hg hn
      show List.Pairwise pairDistinct (acc ++ [mkMcpEntry page term el])
      rw [List.pairwise_append]
      refine ⟨h, by simp, ?_⟩
      intro a ha x hx
      rw [List.mem_singleton] at hx
      subst hx
      intro hc
      exact hn ⟨a, ha, hc⟩
  · exact h

theorem mcpElsScan_pairDistinct (page : PageDesc) (term : String) (lim : Nat) :
    ∀ (es : List BMcpEl) (acc : List SearchResult), acc.Pairwise pairDistinct →
      (mcpElsScan page term lim es acc).Pairwise pairDistinct := by
  intro es
  induction es with
  | nil => intro acc h; exact h
  | cons el es ih =>
    intro acc h
    rw [mcpElsScan]
    split
    · exact h
    · exact ih _ (mcpElStep_pairDistinct page term el acc h)

theorem linkStep_fieldDistinct (page : PageDesc) (qL : String) (mcp : Bool) (baseUrl : String)
    (l : BLink) (acc : List SearchResult) (h : acc.Pairwise fieldDistinct) :
    (linkStep page qL mcp baseUrl l acc).Pairwise fieldDistinct := by
  rw [linkStep]
  by_cases h1 : l.href = "" ∨ jsTrim l.text = "" ∨ (jsTrim l.text).length < 3
  · rw [if_pos h1]
    exact h
  · rw [if_neg h1]
    by_cases h2 : jsIncludes (linkUrlOf mcp baseUrl l) autogenDomain = true
    · rw [if_neg (not_not.2 h2)]
      by_cases h3 : jsIncludes (jsToLower (jsTrim l.text)) qL = true ∨
          jsIncludes (jsToLower (linkUrlOf mcp baseUrl l)) qL = true
      · rw [if_pos h3]
        by_cases h4 : ∃ r ∈ acc, r.url = (mkLinkEntry mcp baseUrl page l).url ∨
            r.title = (mkLinkEntry mcp baseUrl page l).title
        · rw [if_pos h4]
          exact h
        · rw [if_neg h4]
          show List.Pairwise fieldDistinct (acc ++ [mkLinkEntry mcp baseUrl page l])
          rw [List.pairwise_append]
          refine ⟨h, by simp, ?_⟩
          intro a ha x hx
          rw [List.mem_singleton] at hx
          subst hx
          exact ⟨fun hc => h4 ⟨a, ha, Or.inl hc⟩, fun hc => h4 ⟨a, ha, Or.inr hc⟩⟩
      · rw [if_neg h3]
        exact h
    · rw [if_pos h2]
      exact h

theorem linkScan_fieldDistinct (page : PageDesc) (qL : String) (mcp : Bool) (baseUrl : String)
    (lim : Nat) :
    ∀ (ls : List BLink) (acc : List SearchResult), acc.Pairwise fieldDistinct →
      (linkScan page qL mcp baseUrl lim ls acc).Pairwise fieldDistinct := by
  intro ls
  induction ls with
  | nil => intro acc h; exact h
  | cons l ls ih =>
    intro acc h
    rw [linkScan]
    split
    · exact h
    · exact ih _ (linkStep_fieldDistinct page qL mcp baseUrl l acc h)

/-- C9 as amended: the duplicate checks differ per scan.  The paragraph/div
scan and the related-terms scan discard exactly on a matching (url, title)
pair, so they never add an entry whose pair already occurs (they preserve
pairwise pair-distinctness); the link scan discards when an accumulated
entry shares the URL OR the title, so it preserves the stronger pairwise
distinctness of both fields separately; the heading scan performs no
duplicate check at all and appends exact duplicates, as the final conjunct
shows on a concrete page. -/
theorem within_page_dedup_by_scan :
    (∀ (page : PageDesc) (pt qL : String) (lim : Nat) (bs : List BBlock)
        (acc : List SearchResult), acc.Pairwise pairDistinct →
      (blockScan page pt qL lim bs acc).Pairwise pairDistinct) ∧
    (∀ (page : PageDesc) (term : String) (lim : Nat) (es : List BMcpEl)
        (acc : List SearchResult), acc.Pairwise pairDistinct →
      (mcpElsScan page term lim es acc).Pairwise pairDistinct) ∧
    (∀ (page : PageDesc) (qL : String) (mcp : Bool) (baseUrl : String) (lim : Nat)
        (ls : List BLink) (acc : List SearchResult), acc.Pairwise fieldDistinct →
      (linkScan page qL mcp baseUrl lim ls acc).Pairwise fieldDistinct) ∧
    headingScan pgDemo "agent" 10 [hDemo, hDemo] [] =
      [mkHeadingEntry pgDemo hDemo, mkHeadingEntry pgDemo hDemo] :=
  ⟨fun page pt qL lim bs acc h => blockScan_pairDistinct page pt qL lim bs acc h,
   fun page term lim es acc h => mcpElsScan_pairDistinct page term lim es acc h,
   fun page qL mcp baseUrl lim ls acc h => linkScan_fieldDistinct page qL mcp baseUrl lim ls acc h,
   by decide⟩

/-- Witness for the amended theorem of C9: the three scan components applied at
concrete inputs with an empty accumulator. -/
theorem within_page_dedup_by_scan_witness :
    (blockScan pgDemo "Title" "agent" 10 [bDemo] []).Pairwise pairDistinct ∧
      (mcpElsScan pgDemo "tools" 10 [] []).Pairwise pairDistinct ∧
      (linkScan pgDemo "agent" false (getVersionUrl "stable") 10 [lA, lB] []).Pairwise
        fieldDistinct :=
  ⟨within_page_dedup_by_scan.1 pgDemo "Title" "agent" 10 [bDemo] [] List.Pairwise.nil,
   within_page_dedup_by_scan.2.1 pgDemo "tools" 10 [] [] List.Pairwise.nil,
   within_page_dedup_by_scan.2.2.1 pgDemo "agent" false (getVersionUrl "stable") 10 [lA, lB] []
     List.Pairwise.nil⟩

/-! ## Claim C10: whitespace-only queries never match the index -/

theorem char_toLower_ws (c : Char) (h : c.isWhitespace = true) :
    (Char.toLower c).isWhitespace = true := by
  have h' := h
  simp only [Char.isWhitespace, Bool.or_eq_true, decide_eq_true_eq] at h'
  rcases h' with ((rfl | rfl) | rfl) | rfl <;> decide

theorem wsSplitAux_all_ws : ∀ l : List Char, l.all Char.isWhitespace = true →
    wsSplitAux l [] = [] := by
  intro l
  induction l with
  | nil => intro _; rfl
  | cons c rest ih =>
    intro h
    rw [List.all_cons, Bool.and_eq_true] at h
    rw [wsSplitAux, if_pos h.1]
    simp only [List.isEmpty_nil, if_pos]
    exact ih h.2

theorem queryTermsOf_ws (q : String) (h : q.data.all Char.isWhitespace = true) :
    queryTermsOf q = [] := by
  rw [queryTermsOf]
  apply wsSplitAux_all_ws
  show (q.data.map Char.toLower).all Char.isWhitespace = true
  rw [List.all_map]
  rw [List.all_eq_true] at h ⊢
  intro c hc
  exact char_toLower_ws c (h c hc)

theorem scoreOf_nil_terms (a b : String) : scoreOf [] a b = 0 := rfl

theorem collectIndexResults_nil_terms (b : String) (lim : Nat) :
    ∀ (ts ds : List String) (acc : List SearchResult),
      (collectIndexResults [] b lim ts ds acc).1 = acc := by
  intro ts
  induction ts with
  | nil => intro ds acc; rfl
  | cons t ts ih =>
    intro ds acc
    cases ds with
    | nil =>
      rw [collectIndexResults]
      split <;> rfl
    | cons d ds =>
      rw [collectIndexResults]
      split
      · rfl
      · rw [if_neg (by simp [scoreOf_nil_terms])]
        exact ih ds acc

theorem performIndexSearch_ws_empty (q : String) (h : q.data.all Char.isWhitespace = true)
    (d : SearchData) (b : String) (lim : Nat) : performIndexSearch d q b lim = [] := by
  rw [performIndexSearch]
  rcases d with ⟨dt, dn⟩
  rcases dt with _ | ts <;> rcases dn with _ | ds
  · rfl
  · rfl
  · rfl
  · dsimp only
    rcases hc : collectIndexResults (queryTermsOf q) b lim ts ds [] with ⟨res, flag⟩
    have hres : res = [] := by
      have := collectIndexResults_nil_terms b lim ts ds []
      rw [← queryTermsOf_ws q h] at this
      rw [hc] at this
      exact this
    subst hres
    cases flag
    · simp [sortByCountDesc]
    · simp

/-- C10 (confirmed, implicit claim): for a query consisting only of
whitespace (including the empty string), the lowercased whitespace-split
term list is empty, so every document scores 0 and the structured-index
strategy yields zero candidates regardless of the index content; resolution
therefore never returns from the index phase and always proceeds to the
later strategies (the rendered-page attempt, or directly the crawler when
the index fetch throws). -/
theorem whitespace_query_skips_index (q : String) (h : q.data.all Char.isWhitespace = true) :
    (∀ (d : SearchData) (b : String) (lim : Nat), performIndexSearch d q b lim = []) ∧
    (∀ (env : Env) (lim : Nat) (v : String), searchAutoGenDocs env q lim v =
      match env.fetch (indexUrlOf v) with
      | FetchOutcome.error => fallbackSearch env q lim v
      | FetchOutcome.resp _ _ => afterIndexPhase env q lim v) := by
  refine ⟨performIndexSearch_ws_empty q h, ?_⟩
  intro env lim v
  rw [searchAutoGenDocs]
  rcases env.fetch (indexUrlOf v) with _ | ⟨ok, body⟩
  · rfl
  · dsimp only
    rw [orElseNonempty]
    have hempty : indexPhaseResults env body ok q lim v = [] := by
      rw [indexPhaseResults.eq_def]
      split
      · split
        · exact performIndexSearch_ws_empty q h _ _ _
        · rfl
      · rfl
    rw [hempty]
    simp

/-- Witness for C10 at the empty query: the index strategy yields nothing
even on a populated index fixture, and resolution on `badEnv` proceeds past
the index phase. -/
theorem whitespace_query_skips_index_witness :
    ("".data.all Char.isWhitespace = true) ∧
      performIndexSearch dC6 "" "B" 5 = [] ∧
      searchAutoGenDocs badEnv "" 5 "stable" =
        (match badEnv.fetch (indexUrlOf "stable") with
         | FetchOutcome.error => fallbackSearch badEnv "" 5 "stable"
         | FetchOutcome.resp _ _ => afterIndexPhase badEnv "" 5 "stable") :=
  ⟨by decide, (whitespace_query_skips_index "" (by decide)).1 dC6 "B" 5,
    (whitespace_query_skips_index "" (by decide)).2 badEnv 5 "stable"⟩
